import Mathlib

/-!
Shallow embedding of `local_processor.py` (MTGA draft helper).

The script keeps per-archetype card statistics (`process_rankings`),
infers the current draft archetype from picked cards (`get_archetype`),
scores pick "signals" (`calc_score`, accumulated in `process_pack`),
and renders reports (`print_by_gih_winrate`, `print_inventory`).

Python floats are modelled by `ℚ`, Python dicts by association lists
(update-in-place-or-append, mirroring dict insertion-order semantics),
and raising code by `Except Err` / `Option`, written in explicit
`match` style so that executions unfold cleanly in proofs.
-/

/-- Errors raised by the Python code: `KeyError` (missing dict key) and
`ZeroDivisionError`. -/
inductive Err where
  | keyError : Err
  | zeroDiv : Err
deriving DecidableEq, Repr

/-- Lift an `Option` (dict lookup) to `Except`, a missing key raising
`KeyError`. -/
def exceptOf {α : Type} (o : Option α) : Except Err α :=
  match o with
  | some a => Except.ok a
  | none => Except.error Err.keyError

/-- Option-valued map over a list, `none` as soon as one element fails
(a raising Python list comprehension). -/
def mapO {α β : Type} (f : α → Option β) : List α → Option (List β)
  | [] => some []
  | a :: l =>
      match f a with
      | none => none
      | some b =>
          match mapO f l with
          | none => none
          | some bs => some (b :: bs)

/-- Except-valued map over a list (a raising Python loop building a
list). -/
def mapME {α β : Type} (f : α → Except Err β) : List α → Except Err (List β)
  | [] => Except.ok []
  | a :: l =>
      match f a with
      | Except.error e => Except.error e
      | Except.ok b =>
          match mapME f l with
          | Except.error e => Except.error e
          | Except.ok bs => Except.ok (b :: bs)

/-- Except-valued left fold (a raising Python accumulation loop). -/
def foldME {σ α : Type} (f : σ → α → Except Err σ) : σ → List α → Except Err σ
  | s, [] => Except.ok s
  | s, a :: l =>
      match f s a with
      | Except.error e => Except.error e
      | Except.ok s' => foldME f s' l

/-- One statistical entry of the 17lands data, as used by the script
(fields `name`, `color`, `avg_seen`, win rates, game counts). -/
structure StatRecord where
  name : String
  color : String
  avg_seen : ℚ
  ever_drawn_win_rate : ℚ
  never_drawn_win_rate : ℚ
  drawn_improvement_win_rate : ℚ
  ever_drawn_game_count : ℕ
  game_count : ℕ
deriving DecidableEq, Repr

/-- A card of `resources/database.json`: we keep the fields the script
reads, `name` and `cost` (cost symbols as characters). -/
structure CardRecord where
  name : String
  cost : List Char
deriving DecidableEq, Repr

/-- `COLOR_BONUSES = {'W': 0.0041, 'U': 0.0042, 'G': 0.0, 'B': 0.0086, 'R': 0.0180}`;
a missing key raises, hence `Option`. -/
def COLOR_BONUSES : Char → Option ℚ
  | 'W' => some (41 / 10000)
  | 'U' => some (42 / 10000)
  | 'G' => some 0
  | 'B' => some (86 / 10000)
  | 'R' => some (180 / 10000)
  | _ => none

/-- `Processor.archetypes`: the ten two-colour pairs followed by `"XX"`. -/
def ARCHETYPES : List String :=
  ["WU", "WB", "WR", "WG", "UB", "UR", "UG", "BR", "BG", "RG", "XX"]

/-- The ten two-colour pair archetypes (`archetypes[:-1]`). -/
def PAIR_ARCHETYPES : List String :=
  ["WU", "WB", "WR", "WG", "UB", "UR", "UG", "BR", "BG", "RG"]

/-- `ARCHETYPE_BONUSES`: currently all zero. -/
def ARCHETYPE_BONUSES : String → Option ℚ
  | "XX" => some 0
  | "WU" => some 0
  | "WB" => some 0
  | "WR" => some 0
  | "WG" => some 0
  | "UB" => some 0
  | "UR" => some 0
  | "UG" => some 0
  | "BR" => some 0
  | "BG" => some 0
  | "RG" => some 0
  | _ => none

/-- The `worth` table: popularity bucket (1..15) to base value. -/
def worth (z : ℤ) : Option ℚ :=
  if z = 1 then some 15
  else if z = 2 then some 10
  else if z = 3 then some 8
  else if z = 4 then some 3
  else if z = 5 then some 2
  else if z = 6 then some 1
  else if z = 7 then some 0
  else if z = 8 then some 0
  else if z = 9 then some 0
  else if z = 10 then some 0
  else if z = 11 then some 0
  else if z = 12 then some 0
  else if z = 13 then some 0
  else if z = 14 then some 0
  else if z = 15 then some 0
  else none

/-- The `muls` table: pick position (2..15) to multiplier. -/
def muls (p : ℕ) : Option ℚ :=
  if p = 2 then some 0
  else if p = 3 then some (2 / 10)
  else if p = 4 then some (35 / 100)
  else if p = 5 then some (5 / 10)
  else if p = 6 then some (7 / 10)
  else if p = 7 then some (85 / 100)
  else if p = 8 then some 1
  else if p = 9 then some (13 / 10)
  else if p = 10 then some (15 / 10)
  else if p = 11 then some (17 / 10)
  else if p = 12 then some (18 / 10)
  else if p = 13 then some 2
  else if p = 14 then some (22 / 10)
  else if p = 15 then some (25 / 10)
  else none

/-- Python `int()` on a rational: truncation toward zero. -/
def pyInt (q : ℚ) : ℤ :=
  if q < 0 then ⌈q⌉ else ⌊q⌋

/-- `Processor.calc_score`: `worth[int(avg_seen)] * muls[pick]`; `none`
models the `KeyError` raised on an out-of-table argument. -/
def calc_score (pick : ℕ) (avg_seen : ℚ) : Option ℚ :=
  match worth (pyInt avg_seen) with
  | none => none
  | some w =>
      match muls pick with
      | none => none
      | some m => some (w * m)

/-- Association-list lookup (Python `d[k]`, as `Option`). -/
def lookupA {α : Type} (l : List (String × α)) (k : String) : Option α :=
  match l with
  | [] => none
  | (k', v) :: rest => if k' = k then some v else lookupA rest k

/-- Association-list store (Python `d[k] = v`): update in place if the key
exists, else append — preserving dict insertion order. -/
def insertA {α : Type} (l : List (String × α)) (k : String) (v : α) :
    List (String × α) :=
  match l with
  | [] => [(k, v)]
  | (k', v') :: rest =>
      if k' = k then (k', v) :: rest else (k', v') :: insertA rest k v

/-- Per-archetype card-name-keyed statistics map
(`ranking_lookup` in the script). -/
def Lookup : Type := String → List (String × StatRecord)

/-- The empty `defaultdict(dict)`. -/
def emptyLookup : Lookup := fun _ => []

/-- `ranking_lookup[cp][name] = item`. -/
def updateLk (L : Lookup) (cp name : String) (r : StatRecord) : Lookup :=
  fun a => if a = cp then insertA (L a) name r else L a

/-- The per-colour bonus of `process_rankings`:
`sum([COLOR_BONUSES[c] for c in item['color']]) / len(item['color'])`
when the colour string is nonempty, else `0`; `none` models the
`KeyError` on a colour symbol outside `COLOR_BONUSES`. -/
def perColorBonus (color : String) : Option ℚ :=
  if color.toList = [] then some 0
  else
    match mapO COLOR_BONUSES color.toList with
    | none => none
    | some bs => some (bs.sum / (color.toList.length : ℚ))

/-- The cross-archetype correction summed over the ten pairs:
`(lookup[arch][name].game_count / gcXX) * ARCHETYPE_BONUSES[arch]`;
raises on a missing name and on a zero aggregate game count
(`ZeroDivisionError`). -/
def crossStep (L : Lookup) (name : String) (gcXX : ℕ) (acc : ℚ)
    (a : String) : Except Err ℚ :=
  match lookupA (L a) name with
  | none => Except.error Err.keyError
  | some r =>
      match ARCHETYPE_BONUSES a with
      | none => Except.error Err.keyError
      | some ab => Except.ok (acc + ((r.game_count : ℚ) / (gcXX : ℚ)) * ab)

def crossSum (L : Lookup) (name : String) (gcXX : ℕ) : Except Err ℚ :=
  if gcXX = 0 then Except.error Err.zeroDiv
  else foldME (crossStep L name gcXX) 0 PAIR_ARCHETYPES

/-- The body of the inner loop of `Processor.process_rankings` for one raw
item of archetype `cp`: store the item, compute the per-colour bonus, and
add either (for `"XX"`) that bonus plus the cross-archetype correction or
(for a pair) `ARCHETYPE_BONUSES[cp]` to `drawn_improvement_win_rate`. -/
def processItem (cp : String) (L : Lookup) (item : StatRecord) :
    Except Err Lookup :=
  let L1 := updateLk L cp item.name item
  match perColorBonus item.color with
  | none => Except.error Err.keyError
  | some bonus =>
      if cp = "XX" then
        match lookupA (L1 "XX") item.name with
        | none => Except.error Err.keyError
        | some stored =>
            match crossSum L1 item.name stored.game_count with
            | Except.error e => Except.error e
            | Except.ok cross =>
                match lookupA (L1 "XX") item.name with
                | none => Except.error Err.keyError
                | some r =>
                    Except.ok (updateLk L1 "XX" item.name
                      { r with drawn_improvement_win_rate :=
                          r.drawn_improvement_win_rate + (bonus + cross) })
      else
        match ARCHETYPE_BONUSES cp with
        | none => Except.error Err.keyError
        | some ab =>
            match lookupA (L1 cp) item.name with
            | none => Except.error Err.keyError
            | some r =>
                Except.ok (updateLk L1 cp item.name
                  { r with drawn_improvement_win_rate :=
                      r.drawn_improvement_win_rate + ab })

/-- One archetype's pass of `process_rankings`. -/
def processArch (L : Lookup) (cp : String) (items : List StatRecord) :
    Except Err Lookup :=
  foldME (processItem cp) L items

/-- `Processor.process_rankings`: build `ranking_lookup` from the raw
rankings, archetype by archetype in the order of `Processor.archetypes`
(the ten pairs, then `"XX"`). -/
def processRankings (raw : String → List StatRecord) : Except Err Lookup :=
  foldME (fun L cp => processArch L cp (raw cp)) emptyLookup ARCHETYPES

/-- The built lookup (meaningful when `processRankings` succeeds). -/
def finalLookup (raw : String → List StatRecord) : Lookup :=
  match processRankings raw with
  | Except.ok L => L
  | Except.error _ => emptyLookup

/-- The lowercase colour symbols kept by `get_archetype`
(`list('wubrg')`). -/
def wubrgChars : List Char := ['w', 'u', 'b', 'r', 'g']

/-- One `Counter.update` step: increment the count of `c`, first
occurrences appended at the end (dict insertion order). -/
def bump (acc : List (Char × ℕ)) (c : Char) : List (Char × ℕ) :=
  match acc with
  | [] => [(c, 1)]
  | (k, n) :: rest =>
      if k = c then (k, n + 1) :: rest else (k, n) :: bump rest c

/-- `Counter(iterable)`: tally in first-encounter key order. -/
def tallyChars (l : List Char) : List (Char × ℕ) := l.foldl bump []

/-- The first entry of maximal count (Python `most_common` tie-break:
first-encountered wins). -/
def maxEntry (x : Char × ℕ) (xs : List (Char × ℕ)) : Char × ℕ :=
  xs.foldl (fun b y => if b.2 < y.2 then y else b) x

/-- `counter.most_common(2)`: the top entry, then the top entry of the
rest, counts descending with stable tie-break. -/
def mostCommonTwo (l : List (Char × ℕ)) : List (Char × ℕ) :=
  match l with
  | [] => []
  | x :: xs =>
      let m := maxEntry x xs
      match (x :: xs).filter (fun p => p.1 ≠ m.1) with
      | [] => [m]
      | y :: ys => [m, maxEntry y ys]

/-- Python `set(a) == set(b)` on character lists. -/
def setEqB (a b : List Char) : Bool :=
  a.all (fun c => b.contains c) && b.all (fun c => a.contains c)

/-- `Processor.get_archetype` as a function of the cost lists of the
picked cards: tally all cost symbols, delete non-`wubrg` keys, take the
two most common, and return the first archetype whose letter set equals
them, else `"XX"`. -/
def getArchetypeOfCosts (costs : List (List Char)) : String :=
  let cnt := (tallyChars costs.flatten).filter
    (fun p => wubrgChars.contains p.1)
  let top := (mostCommonTwo cnt).map (fun p => p.1.toUpper)
  match ARCHETYPES.find? (fun a => setEqB a.toList top) with
  | some a => a
  | none => "XX"

/-- The draft-helper state: card database, built ranking lookup, current
draft id, picks keyed by `(pack_number, pick_number)`, and the per-colour
signal totals (`defaultdict(int)`). -/
structure ProcState where
  db : ℕ → Option CardRecord
  ranking_lookup : Lookup
  draft_id : Option String
  picks : List ((ℕ × ℕ) × ℕ)
  signals : List (String × ℚ)

/-- A "pack shown" event document. -/
structure PackDoc where
  draft_id : String
  pack_number : ℕ
  pick_number : ℕ
  card_ids : List ℕ
deriving DecidableEq, Repr

/-- Store into the picks dict, updating in place on an existing
`(pack, pick)` key, else appending. -/
def insertPick (l : List ((ℕ × ℕ) × ℕ)) (k : ℕ × ℕ) (v : ℕ) :
    List ((ℕ × ℕ) × ℕ) :=
  match l with
  | [] => [(k, v)]
  | (k', v') :: rest =>
      if k' = k then (k', v) :: rest else (k', v') :: insertPick rest k v

/-- `Processor.human_draft_pick`:
`picks[(pack_number, pick_number)] = card_id`. -/
def human_draft_pick (st : ProcState) (pack pick card_id : ℕ) : ProcState :=
  { st with picks := insertPick st.picks (pack, pick) card_id }

/-- `Processor.get_archetype` on the processor state: look up the cost of
every picked card (raising on a missing card id) and infer the tag. -/
def get_archetype (st : ProcState) : Except Err String :=
  match mapME (fun p => exceptOf ((st.db p.2).map CardRecord.cost)) st.picks with
  | Except.error e => Except.error e
  | Except.ok costs => Except.ok (getArchetypeOfCosts costs)

/-- `Processor.ranking` with the archetype already chosen: card lookup in
the database, then name lookup in that archetype's map. -/
def rankingOf (st : ProcState) (arch : String) (card_id : ℕ) :
    Except Err StatRecord :=
  match st.db card_id with
  | none => Except.error Err.keyError
  | some card => exceptOf (lookupA (st.ranking_lookup arch) card.name)

/-- `Processor.ranking(card_id, default)`: the `"XX"` map when `default`
is set, else the map of the currently inferred archetype. -/
def ranking (st : ProcState) (card_id : ℕ) (default : Bool) :
    Except Err StatRecord :=
  if default then rankingOf st "XX" card_id
  else
    match get_archetype st with
    | Except.error e => Except.error e
    | Except.ok arch => rankingOf st arch card_id

/-- Ascending order on `avg_seen` (the `sorted` key of
`process_pack`). -/
def leAvgSeen (a b : ℕ × StatRecord) : Prop :=
  a.2.avg_seen ≤ b.2.avg_seen

instance : DecidableRel leAvgSeen := fun a b =>
  inferInstanceAs (Decidable (a.2.avg_seen ≤ b.2.avg_seen))

instance : IsTotal (ℕ × StatRecord) leAvgSeen :=
  ⟨fun a b => le_total a.2.avg_seen b.2.avg_seen⟩

instance : IsTrans (ℕ × StatRecord) leAvgSeen :=
  ⟨fun _ _ _ hab hbc => le_trans hab hbc⟩

/-- Descending order on `ever_drawn_win_rate` (the `sorted ... reverse=True`
key of `print_by_gih_winrate`). -/
def geGihWr (a b : ℕ × StatRecord) : Prop :=
  b.2.ever_drawn_win_rate ≤ a.2.ever_drawn_win_rate

instance : DecidableRel geGihWr := fun a b =>
  inferInstanceAs (Decidable (b.2.ever_drawn_win_rate ≤ a.2.ever_drawn_win_rate))

instance : IsTotal (ℕ × StatRecord) geGihWr :=
  ⟨fun a b => le_total b.2.ever_drawn_win_rate a.2.ever_drawn_win_rate⟩

instance : IsTrans (ℕ × StatRecord) geGihWr :=
  ⟨fun _ _ _ hab hbc => le_trans hbc hab⟩

/-- The signal total of a colour (`defaultdict(int)` read). -/
def getSignal (sigs : List (String × ℚ)) (c : String) : ℚ :=
  (lookupA sigs c).getD 0

/-- `self.signals[color] += score` on the `defaultdict`. -/
def addSig (sigs : List (String × ℚ)) (c : String) (v : ℚ) :
    List (String × ℚ) :=
  insertA sigs c (getSignal sigs c + v)

/-- The checks `print_card` performs for one card: the card must be in the
database and its name in the `"XX"` map (its archetype map membership was
already checked by the caller's `ranking` call). -/
def printCardChecks (st : ProcState) (card_id : ℕ) : Except Err Unit :=
  match st.db card_id with
  | none => Except.error Err.keyError
  | some _ =>
      match rankingOf st "XX" card_id with
      | Except.error e => Except.error e
      | Except.ok _ => Except.ok ()

/-- One iteration of the card loop of `process_pack`: on pack 1, score the
card with `calc_score` and accumulate the score under the card's colour;
then run `print_card`. -/
def packStep (st : ProcState) (pack pick : ℕ) (sigs : List (String × ℚ))
    (pr : ℕ × StatRecord) : Except Err (List (String × ℚ)) :=
  match
    (if pack = 1 then
      match calc_score pick pr.2.avg_seen with
      | none => Except.error Err.keyError
      | some sc => Except.ok (addSig sigs pr.2.color sc)
    else Except.ok sigs) with
  | Except.error e => Except.error e
  | Except.ok sigs' =>
      match printCardChecks st pr.1 with
      | Except.error e => Except.error e
      | Except.ok _ => Except.ok sigs'

/-- The keyed ranking of one card: the pair `(card_id, stats)` used by the
sorting passes, raising when the card or its name is unknown. -/
def rankPair (st : ProcState) (arch : String) (id : ℕ) :
    Except Err (ℕ × StatRecord) :=
  match rankingOf st arch id with
  | Except.error e => Except.error e
  | Except.ok r => Except.ok (id, r)

/-- `Processor.print_by_gih_winrate`: keep the cards with
`ever_drawn_game_count > 200`, sort them descending by
`ever_drawn_win_rate`, print each; the returned list is the printed
order of card ids. -/
def printByGih (st : ProcState) (arch : String) (ids : List ℕ) :
    Except Err (List ℕ) :=
  match mapME (rankPair st arch) ids with
  | Except.error e => Except.error e
  | Except.ok keyed =>
      let cards := keyed.filter (fun pr => 200 < pr.2.ever_drawn_game_count)
      let sorted := List.insertionSort geGihWr cards
      match mapME (fun pr => printCardChecks st pr.1) sorted with
      | Except.error e => Except.error e
      | Except.ok _ => Except.ok (sorted.map (fun pr => pr.1))

/-- The reports a pack event produces: the ALSA-ordered table, the
win-rate-ordered table, and (on the final pick) the inventory report. -/
structure Output where
  mainOrder : List ℕ
  gihOrder : List ℕ
  inventory : Option (List ℕ)
deriving DecidableEq, Repr

/-- `Processor.process_pack`: sort the offered cards by `avg_seen`, walk
them accumulating pack-1 signals and printing, then print the win-rate
view, the signals, and — exactly on pack 3 pick 14 — the inventory over
the picked cards. -/
def processPack (st : ProcState) (doc : PackDoc) :
    Except Err (ProcState × Output) :=
  match get_archetype st with
  | Except.error e => Except.error e
  | Except.ok arch =>
      match mapME (rankPair st arch) doc.card_ids with
      | Except.error e => Except.error e
      | Except.ok keyed =>
          let sorted := List.insertionSort leAvgSeen keyed
          match foldME (packStep st doc.pack_number doc.pick_number)
              st.signals sorted with
          | Except.error e => Except.error e
          | Except.ok sigs =>
              match printByGih st arch doc.card_ids with
              | Except.error e => Except.error e
              | Except.ok gih =>
                  match
                    (if doc.pack_number = 3 ∧ doc.pick_number = 14 then
                      match printByGih st arch (st.picks.map (fun p => p.2)) with
                      | Except.error e => Except.error e
                      | Except.ok l => Except.ok (some l)
                    else Except.ok none) with
                  | Except.error e => Except.error e
                  | Except.ok inv =>
                      Except.ok ({ st with signals := sigs },
                        { mainOrder := sorted.map (fun pr => pr.1),
                          gihOrder := gih, inventory := inv })

/-- `Processor.human_draft_pack`: on a new draft id, reset the draft
state (record the id, clear picks and signals) before processing the
pack; otherwise process it on the accumulated state. -/
def human_draft_pack (st : ProcState) (doc : PackDoc) :
    Except Err (ProcState × Output) :=
  let st1 :=
    if st.draft_id = some doc.draft_id then st
    else { st with draft_id := some doc.draft_id, picks := [], signals := [] }
  processPack st1 doc

/-- What `load_rankings` (with the `FileNotFoundError` handler of
`__init__`) decides to do. -/
inductive LoadAction where
  | fetch : LoadAction
  | loadDisk : LoadAction
deriving DecidableEq, Repr

/-- Five days in seconds, the freshness window of `load_rankings`. -/
def fiveDays : ℤ := 5 * 86400

/-- The startup cache decision: `mtime` is the snapshot's modification
time in seconds (`none` when the file is missing, which raises
`FileNotFoundError`, caught by `__init__` and answered with a fetch);
a present file is refetched exactly when
`mtime < now - timedelta(days=5)`, else loaded from disk. -/
def loadOrRefresh (mtime : Option ℤ) (now : ℤ) : LoadAction :=
  match mtime with
  | none => LoadAction.fetch
  | some t => if t < now - fiveDays then LoadAction.fetch
    else LoadAction.loadDisk

/-- The spec's wording of the archetype inference: tally only the colour
symbols `{W,U,B,R,G}` of all costs (generic symbols ignored up front),
take the two most frequent with stable tie-break, and return the
two-colour archetype tag whose colour set equals them, else `"XX"`. -/
def inferArchetypeSpec (costs : List (List Char)) : String :=
  let cnt := tallyChars (costs.flatten.filter (fun c => wubrgChars.contains c))
  let top := (mostCommonTwo cnt).map (fun p => p.1.toUpper)
  match PAIR_ARCHETYPES.find? (fun a => setEqB a.toList top) with
  | some a => a
  | none => "XX"

/-- The pick score over the lookup tables, with out-of-table entries read
as 0 (only used on the in-table domain). -/
def pickScore (p b : ℕ) : ℚ :=
  (worth (b : ℤ)).getD 0 * (muls p).getD 0

/-- A concrete raw statistics entry used as a test vector. -/
def boltStat : StatRecord :=
  { name := "Bolt", color := "R", avg_seen := 21 / 10,
    ever_drawn_win_rate := 11 / 20, never_drawn_win_rate := 1 / 2,
    drawn_improvement_win_rate := 1 / 10, ever_drawn_game_count := 500,
    game_count := 10 }

/-- A concrete raw-rankings snapshot: the same single entry under every
archetype. -/
def rawEx : String → List StatRecord := fun _ => [boltStat]

/-- The card of `boltStat` in the card database. -/
def cardBolt : CardRecord := { name := "Bolt", cost := ['r'] }

/-- A concrete one-card database. -/
def dbEx : ℕ → Option CardRecord :=
  fun id => if id = 1 then some cardBolt else none

/-- A concrete processor state: empty draft, rankings built from
`rawEx`. -/
def stEx : ProcState :=
  { db := dbEx, ranking_lookup := finalLookup rawEx, draft_id := none,
    picks := [], signals := [] }

/-- `stEx` after one recorded pick (card 1 at pack 1, pick 1). -/
def stEx2 : ProcState :=
  { stEx with picks := [((1, 1), 1)] }

/-- A "pack shown" event at pack 1, pick 1, offering card 1. -/
def docP11 : PackDoc :=
  { draft_id := "draft-1", pack_number := 1, pick_number := 1,
    card_ids := [1] }

/-- A "pack shown" event at pack 1, pick 3, offering card 1. -/
def docP13 : PackDoc :=
  { draft_id := "draft-1", pack_number := 1, pick_number := 3,
    card_ids := [1] }

/-- A "pack shown" event at pack 2, pick 5, offering card 1. -/
def docP25 : PackDoc :=
  { draft_id := "draft-1", pack_number := 2, pick_number := 5,
    card_ids := [1] }

/-- A "pack shown" event at the final pick (pack 3, pick 14). -/
def docP314 : PackDoc :=
  { draft_id := "draft-1", pack_number := 3, pick_number := 14,
    card_ids := [1] }

/-- `stEx` with the draft id of the example documents already
recorded. -/
def stEx3 : ProcState :=
  { stEx with draft_id := some "draft-1" }

/-- The inferred archetype as a plain value (the tag on success, `"XX"`
as a junk default on failure; only used under success hypotheses). -/
def archD (st : ProcState) : String :=
  match get_archetype st with
  | Except.ok a => a
  | Except.error _ => "XX"

/-- The colour of a card's stats in the currently inferred archetype,
read totally (junk `""` on a failed lookup). -/
def cardColorD (st : ProcState) (id : ℕ) : String :=
  match rankingOf st (archD st) id with
  | Except.ok r => r.color
  | Except.error _ => ""

/-- The `avg_seen` of a card's stats in the currently inferred
archetype, read totally (junk `0` on a failed lookup). -/
def cardAvgD (st : ProcState) (id : ℕ) : ℚ :=
  match rankingOf st (archD st) id with
  | Except.ok r => r.avg_seen
  | Except.error _ => 0

/-- The signal contribution of one offered card to the colour `c`:
its `calc_score` if its colour is `c`, else `0`. -/
def sigContrib (st : ProcState) (pick : ℕ) (c : String) (id : ℕ) : ℚ :=
  if cardColorD st id = c then (calc_score pick (cardAvgD st id)).getD 0
  else 0

/-- The `ever_drawn_game_count` of a card in the currently inferred
archetype, read totally (junk `0` on a failed lookup). -/
def gcD (st : ProcState) (id : ℕ) : ℕ :=
  match rankingOf st (archD st) id with
  | Except.ok r => r.ever_drawn_game_count
  | Except.error _ => 0

/-- The `ever_drawn_win_rate` of a card in the currently inferred
archetype, read totally (junk `0` on a failed lookup). -/
def wrD (st : ProcState) (id : ℕ) : ℚ :=
  match rankingOf st (archD st) id with
  | Except.ok r => r.ever_drawn_win_rate
  | Except.error _ => 0

/-- Every stored record is keyed by its own `name` field. -/
def NameKeyed (L : Lookup) : Prop :=
  ∀ a n r, lookupA (L a) n = some r → r.name = n

/-- `worth` has exactly the keys 1..15. -/
theorem worth_eq_none_iff (z : ℤ) : worth z = none ↔ z < 1 ∨ 15 < z := by
  constructor
  · intro h
    by_contra hc
    push_neg at hc
    obtain ⟨h1, h2⟩ := hc
    interval_cases z <;> simp [worth] at h
  · intro h
    have h1 : ¬ z = 1 := by omega
    have h2 : ¬ z = 2 := by omega
    have h3 : ¬ z = 3 := by omega
    have h4 : ¬ z = 4 := by omega
    have h5 : ¬ z = 5 := by omega
    have h6 : ¬ z = 6 := by omega
    have h7 : ¬ z = 7 := by omega
    have h8 : ¬ z = 8 := by omega
    have h9 : ¬ z = 9 := by omega
    have h10 : ¬ z = 10 := by omega
    have h11 : ¬ z = 11 := by omega
    have h12 : ¬ z = 12 := by omega
    have h13 : ¬ z = 13 := by omega
    have h14 : ¬ z = 14 := by omega
    have h15 : ¬ z = 15 := by omega
    simp [worth, h1, h2, h3, h4, h5, h6, h7, h8, h9, h10, h11, h12, h13, h14,
      h15]

/-- `muls` has exactly the keys 2..15. -/
theorem muls_eq_none_iff (p : ℕ) : muls p = none ↔ p < 2 ∨ 15 < p := by
  constructor
  · intro h
    by_contra hc
    push_neg at hc
    obtain ⟨h1, h2⟩ := hc
    interval_cases p <;> simp [muls] at h
  · intro h
    have h2 : ¬ p = 2 := by omega
    have h3 : ¬ p = 3 := by omega
    have h4 : ¬ p = 4 := by omega
    have h5 : ¬ p = 5 := by omega
    have h6 : ¬ p = 6 := by omega
    have h7 : ¬ p = 7 := by omega
    have h8 : ¬ p = 8 := by omega
    have h9 : ¬ p = 9 := by omega
    have h10 : ¬ p = 10 := by omega
    have h11 : ¬ p = 11 := by omega
    have h12 : ¬ p = 12 := by omega
    have h13 : ¬ p = 13 := by omega
    have h14 : ¬ p = 14 := by omega
    have h15 : ¬ p = 15 := by omega
    simp [muls, h2, h3, h4, h5, h6, h7, h8, h9, h10, h11, h12, h13, h14, h15]

/-- C5: on startup, a remote refresh happens exactly when the snapshot is
absent or strictly older than five days; at exactly the five-day
boundary the snapshot is loaded from disk, and a missing file yields a
fetch rather than a failure. -/
theorem C5_cache_refresh_iff_absent_or_stale :
    ∀ (mtime : Option ℤ) (now : ℤ),
      (loadOrRefresh mtime now = LoadAction.fetch ↔
        mtime = none ∨ ∃ t, mtime = some t ∧ fiveDays < now - t) ∧
      loadOrRefresh none now = LoadAction.fetch ∧
      loadOrRefresh (some (now - fiveDays)) now = LoadAction.loadDisk := by
  intro mtime now
  refine ⟨?_, rfl, ?_⟩
  · cases mtime with
    | none => simp [loadOrRefresh]
    | some t =>
        simp only [loadOrRefresh, Option.some.injEq]
        constructor
        · intro h
          split at h
          · rename_i hlt
            exact Or.inr ⟨t, rfl, by omega⟩
          · cases h
        · intro h
          rcases h with h | h
          · cases h
          · obtain ⟨u, hu, hage⟩ := h
            cases hu
            have hlt : t < now - fiveDays := by omega
            simp [hlt]
  · have hlt : ¬ (now - fiveDays < now - fiveDays) := lt_irrefl _
    simp [loadOrRefresh, hlt]

unseal Rat.mul Rat.inv Rat.add Rat.sub in
/-- C4: over pick positions 2..15 and popularity buckets 1..15, the pick
score `worth[bucket] * muls[pickPosition]` is non-decreasing in the pick
position at a fixed bucket, and non-increasing in the bucket at a fixed
pick position. -/
theorem C4_pick_score_monotone :
    (∀ p, 2 ≤ p → p ≤ 15 → ∀ q, 2 ≤ q → q ≤ 15 → ∀ b, 1 ≤ b → b ≤ 15 →
      p ≤ q → pickScore p b ≤ pickScore q b) ∧
    (∀ p, 2 ≤ p → p ≤ 15 → ∀ b, 1 ≤ b → b ≤ 15 → ∀ c, 1 ≤ c → c ≤ 15 →
      b ≤ c → pickScore p c ≤ pickScore p b) := by
  decide

unseal Rat.mul Rat.inv Rat.add Rat.sub in
/-- Witness for C4 at concrete inputs. -/
theorem C4_pick_score_monotone_witness :
    pickScore 3 2 ≤ pickScore 4 2 ∧ pickScore 7 5 ≤ pickScore 7 2 :=
  ⟨C4_pick_score_monotone.1 3 (by decide) (by decide) 4 (by decide)
      (by decide) 2 (by decide) (by decide) (by decide),
    C4_pick_score_monotone.2 7 (by decide) (by decide) 2 (by decide)
      (by decide) 5 (by decide) (by decide) (by decide)⟩

/-- `mapME` success preserves the length. -/
theorem mapME_ok_length {α β : Type} (f : α → Except Err β) :
    ∀ (l : List α) (bs : List β), mapME f l = Except.ok bs →
      bs.length = l.length := by
  intro l
  induction l with
  | nil => intro bs h; cases h; rfl
  | cons a t ih =>
      intro bs h
      unfold mapME at h
      cases hf : f a with
      | error e => rw [hf] at h; cases h
      | ok b =>
          rw [hf] at h
          cases ht : mapME f t with
          | error e => rw [ht] at h; cases h
          | ok bs' =>
              rw [ht] at h
              cases h
              simp [ih bs' ht]

/-- On pick position 1 the score table has no multiplier, so
`calc_score` always raises. -/
theorem calc_score_pick_one (avg : ℚ) : calc_score 1 avg = none := by
  unfold calc_score
  cases hw : worth (pyInt avg) with
  | none => rfl
  | some w => rfl

/-- Inversion of a successful `processPack`: every stage succeeded, and
the state and output are assembled from the stage results. -/
theorem processPack_ok_elim {st : ProcState} {doc : PackDoc}
    {st' : ProcState} {out : Output}
    (h : processPack st doc = Except.ok (st', out)) :
    ∃ arch keyed sigs gih inv,
      get_archetype st = Except.ok arch ∧
      mapME (rankPair st arch) doc.card_ids = Except.ok keyed ∧
      foldME (packStep st doc.pack_number doc.pick_number) st.signals
        (List.insertionSort leAvgSeen keyed) = Except.ok sigs ∧
      printByGih st arch doc.card_ids = Except.ok gih ∧
      ((doc.pack_number = 3 ∧ doc.pick_number = 14 →
        ∃ l, printByGih st arch (st.picks.map (fun p => p.2)) =
          Except.ok l ∧ inv = some l) ∧
       (¬ (doc.pack_number = 3 ∧ doc.pick_number = 14) → inv = none)) ∧
      st' = { st with signals := sigs } ∧
      out = { mainOrder := (List.insertionSort leAvgSeen keyed).map
                (fun pr => pr.1),
              gihOrder := gih, inventory := inv } := by
  unfold processPack at h
  split at h
  · cases h
  · rename_i arch ha
    split at h
    · cases h
    · rename_i keyed hk
      dsimp only at h
      split at h
      · cases h
      · rename_i sigs hf
        split at h
        · cases h
        · rename_i gih hg
          split at h
          · cases h
          · rename_i inv hi
            cases h
            refine ⟨arch, keyed, sigs, gih, inv, ha, hk, hf, hg, ⟨?_, ?_⟩,
              rfl, rfl⟩
            · intro hcond
              rw [if_pos hcond] at hi
              split at hi
              · cases hi
              · rename_i l hl
                cases hi
                exact ⟨l, hl, rfl⟩
            · intro hcond
              rw [if_neg hcond] at hi
              cases hi
              rfl

/-- C10: the pick-score computation is partial — it raises exactly when
the pick position is outside 2..15 or the truncated popularity is
outside 1..15 — and any pack event at pack 1, pick 1 with a nonempty
card list fails to process, the multiplier table having no entry for
position 1. -/
theorem C10_score_partial_no_clamping :
    (∀ (pick : ℕ) (avg : ℚ), calc_score pick avg = none ↔
      (pick < 2 ∨ 15 < pick) ∨ (pyInt avg < 1 ∨ 15 < pyInt avg)) ∧
    (∀ (st : ProcState) (doc : PackDoc), doc.pack_number = 1 →
      doc.pick_number = 1 → doc.card_ids ≠ [] →
      (processPack st doc).isOk = false) := by
  constructor
  · intro pick avg
    have hwiff := worth_eq_none_iff (pyInt avg)
    have hmiff := muls_eq_none_iff pick
    rcases hw : worth (pyInt avg) with _ | w <;>
      rcases hm : muls pick with _ | m <;>
      rw [hw] at hwiff <;> rw [hm] at hmiff <;>
      simp only [calc_score, hw, hm] <;>
      simp_all
  · intro st doc h1 h2 h3
    cases hok : processPack st doc with
    | error e => rfl
    | ok pr =>
        exfalso
        obtain ⟨st', out⟩ := pr
        obtain ⟨arch, keyed, sigs, gih, inv, ha, hk, hf, _⟩ :=
          processPack_ok_elim hok
        have hlen : keyed.length = doc.card_ids.length :=
          mapME_ok_length _ _ _ hk
        cases hs : List.insertionSort leAvgSeen keyed with
        | nil =>
            have hperm := List.perm_insertionSort leAvgSeen keyed
            rw [hs] at hperm
            have hknil : keyed = [] := hperm.symm.eq_nil
            rw [hknil] at hlen
            cases hcc : doc.card_ids with
            | nil => exact h3 hcc
            | cons x xs => rw [hcc] at hlen; simp at hlen
        | cons x rest =>
            rw [hs, h1, h2] at hf
            have hstep : packStep st 1 1 st.signals x =
                Except.error Err.keyError := by
              unfold packStep
              simp [calc_score_pick_one]
            unfold foldME at hf
            rw [hstep] at hf
            cases hf

/-- C7: a pack event with a new draft identifier resets the draft state
(empty picks, zero signals, the new id recorded) before the pack is
processed; with the same identifier the accumulated picks and signals
are kept, and processing never touches the picks. -/
theorem C7_new_draft_resets_state :
    ∀ (st : ProcState) (doc : PackDoc),
      (st.draft_id = some doc.draft_id →
        human_draft_pack st doc = processPack st doc ∧
        (∀ st' out, processPack st doc = Except.ok (st', out) →
          st'.picks = st.picks ∧ st'.draft_id = st.draft_id)) ∧
      (st.draft_id ≠ some doc.draft_id →
        human_draft_pack st doc =
          processPack
            { st with draft_id := some doc.draft_id, picks := [],
                      signals := [] } doc ∧
        (∀ st' out, human_draft_pack st doc = Except.ok (st', out) →
          st'.draft_id = some doc.draft_id ∧ st'.picks = [] ∧
          st'.db = st.db ∧ st'.ranking_lookup = st.ranking_lookup)) := by
  intro st doc
  constructor
  · intro hsame
    constructor
    · unfold human_draft_pack
      rw [if_pos hsame]
    · intro st' out h
      obtain ⟨arch, keyed, sigs, gih, inv, _, _, _, _, _, hst, _⟩ :=
        processPack_ok_elim h
      rw [hst]
      exact ⟨rfl, rfl⟩
  · intro hdiff
    constructor
    · unfold human_draft_pack
      rw [if_neg hdiff]
    · intro st' out h
      unfold human_draft_pack at h
      rw [if_neg hdiff] at h
      obtain ⟨arch, keyed, sigs, gih, inv, _, _, _, _, _, hst, _⟩ :=
        processPack_ok_elim h
      rw [hst]
      exact ⟨rfl, rfl, rfl, rfl⟩

unseal Rat.mul Rat.inv Rat.add Rat.sub in
/-- Witness for C7: a same-id event processes on the accumulated state,
and a new-id event processes on the reset state. -/
theorem C7_new_draft_resets_state_witness :
    human_draft_pack stEx3 docP25 = processPack stEx3 docP25 ∧
    human_draft_pack stEx docP25 =
      processPack
        { stEx with draft_id := some "draft-1", picks := [],
                    signals := [] } docP25 :=
  ⟨((C7_new_draft_resets_state stEx3 docP25).1 (by rfl)).1,
    ((C7_new_draft_resets_state stEx docP25).2 (by decide)).1⟩

/-- C9: the inventory report is produced exactly on pack 3, pick 14, and
is the filtered/sorted win-rate view applied to exactly the card ids
accumulated in the picks mapping of the current draft. -/
theorem C9_inventory_exactly_on_final_pick :
    ∀ (st : ProcState) (doc : PackDoc) (st' : ProcState) (out : Output),
      processPack st doc = Except.ok (st', out) →
      (out.inventory.isSome = true ↔
        (doc.pack_number = 3 ∧ doc.pick_number = 14)) ∧
      (∀ l, out.inventory = some l →
        ∃ arch, get_archetype st = Except.ok arch ∧
          printByGih st arch (st.picks.map (fun p => p.2)) =
            Except.ok l) := by
  intro st doc st' out h
  obtain ⟨arch, keyed, sigs, gih, inv, ha, hk, hf, hg, ⟨hyes, hno⟩, hst, hout⟩ :=
    processPack_ok_elim h
  rw [hout]
  constructor
  · constructor
    · intro hsome
      by_contra hc
      rw [hno hc] at hsome
      cases hsome
    · intro hcond
      obtain ⟨l, hl, hinv⟩ := hyes hcond
      rw [hinv]
      rfl
  · intro l hl
    by_cases hcond : doc.pack_number = 3 ∧ doc.pick_number = 14
    · obtain ⟨l', hl', hinv⟩ := hyes hcond
      rw [hinv] at hl
      cases hl
      exact ⟨arch, ha, hl'⟩
    · rw [hno hcond] at hl
      cases hl

unseal Rat.mul Rat.inv Rat.add Rat.sub in
/-- Witness for C9 on a concrete final-pick event. -/
theorem C9_inventory_exactly_on_final_pick_witness :
    ((Output.mk [1] [1] (some [1])).inventory.isSome = true ↔
      (docP314.pack_number = 3 ∧ docP314.pick_number = 14)) :=
  (C9_inventory_exactly_on_final_pick stEx2 docP314 stEx2
    (Output.mk [1] [1] (some [1])) (by rfl)).1

/-- A successful keyed-ranking pass keys every offered card with its
looked-up record, in order. -/
theorem mapME_rankPair_ok (st : ProcState) (arch : String) :
    ∀ (ids : List ℕ) (keyed : List (ℕ × StatRecord)),
      mapME (rankPair st arch) ids = Except.ok keyed →
      keyed.map (fun pr => pr.1) = ids ∧
      ∀ pr ∈ keyed, rankingOf st arch pr.1 = Except.ok pr.2 := by
  intro ids
  induction ids with
  | nil =>
      intro keyed h
      cases h
      exact ⟨rfl, by intro pr hpr; cases hpr⟩
  | cons a t ih =>
      intro keyed h
      unfold mapME at h
      cases hra : rankPair st arch a with
      | error e => rw [hra] at h; cases h
      | ok b =>
          rw [hra] at h
          cases ht : mapME (rankPair st arch) t with
          | error e => rw [ht] at h; cases h
          | ok bs =>
              rw [ht] at h
              cases h
              obtain ⟨hmap, hpt⟩ := ih bs ht
              unfold rankPair at hra
              cases hr : rankingOf st arch a with
              | error e => rw [hr] at hra; cases hra
              | ok r =>
                  rw [hr] at hra
                  cases hra
                  constructor
                  · simp [hmap]
                  · intro pr hpr
                    cases hpr with
                    | head => exact hr
                    | tail _ hmem => exact hpt pr hmem

/-- Keeping the over-200-games cards of the keyed list and reading off
the ids is filtering the offered ids by their game count. -/
theorem mapME_rankPair_filter_map (st : ProcState) :
    ∀ (ids : List ℕ) (keyed : List (ℕ × StatRecord)),
      mapME (rankPair st (archD st)) ids = Except.ok keyed →
      (keyed.filter (fun pr => 200 < pr.2.ever_drawn_game_count)).map
          (fun pr => pr.1) =
        ids.filter (fun id => 200 < gcD st id) := by
  intro ids
  induction ids with
  | nil => intro keyed h; cases h; rfl
  | cons a t ih =>
      intro keyed h
      unfold mapME at h
      cases hra : rankPair st (archD st) a with
      | error e => rw [hra] at h; cases h
      | ok b =>
          rw [hra] at h
          cases ht : mapME (rankPair st (archD st)) t with
          | error e => rw [ht] at h; cases h
          | ok bs =>
              rw [ht] at h
              cases h
              unfold rankPair at hra
              cases hr : rankingOf st (archD st) a with
              | error e => rw [hr] at hra; cases hra
              | ok r =>
                  rw [hr] at hra
                  cases hra
                  have hgc : gcD st a = r.ever_drawn_game_count := by
                    unfold gcD
                    rw [hr]
                  by_cases hcond : 200 < r.ever_drawn_game_count
                  · simp only [List.filter_cons, hgc, decide_eq_true_eq]
                    rw [if_pos hcond, if_pos hcond, List.map_cons,
                      ih bs ht]
                  · simp only [List.filter_cons, hgc, decide_eq_true_eq]
                    rw [if_neg hcond, if_neg hcond]
                    exact ih bs ht

/-- C8: the win-rate report of a pack event lists exactly the offered
cards whose archetype-specific ever-drawn game count strictly exceeds
200, in descending order of archetype-specific ever-drawn win rate. -/
theorem C8_gih_report_filter_and_sort :
    ∀ (st : ProcState) (doc : PackDoc) (st' : ProcState) (out : Output),
      processPack st doc = Except.ok (st', out) →
      out.gihOrder.Perm (doc.card_ids.filter (fun id => 200 < gcD st id)) ∧
      out.gihOrder.Pairwise (fun a b => wrD st b ≤ wrD st a) := by
  intro st doc st' out h
  obtain ⟨arch, keyed, sigs, gih, inv, ha, hk, hf, hg, _, hst, hout⟩ :=
    processPack_ok_elim h
  have harchD : archD st = arch := by
    unfold archD
    rw [ha]
  rw [hout]
  unfold printByGih at hg
  rw [hk] at hg
  dsimp only at hg
  cases hc : mapME (fun pr => printCardChecks st pr.1)
      (List.insertionSort geGihWr
        (keyed.filter (fun pr => 200 < pr.2.ever_drawn_game_count))) with
  | error e => rw [hc] at hg; cases hg
  | ok u =>
      rw [hc] at hg
      cases hg
      have hfm := mapME_rankPair_filter_map st doc.card_ids keyed
        (by rw [harchD]; exact hk)
      have hperm := List.perm_insertionSort geGihWr
        (keyed.filter (fun pr => 200 < pr.2.ever_drawn_game_count))
      constructor
      · rw [← hfm]
        exact hperm.map (fun pr => pr.1)
      · have hsorted := List.sorted_insertionSort geGihWr
          (keyed.filter (fun pr => 200 < pr.2.ever_drawn_game_count))
        have hpt := (mapME_rankPair_ok st arch doc.card_ids keyed hk).2
        have hpw : (List.insertionSort geGihWr
            (keyed.filter (fun pr => 200 < pr.2.ever_drawn_game_count))).Pairwise
            (fun pr qr => wrD st qr.1 ≤ wrD st pr.1) := by
          refine List.Pairwise.imp_of_mem ?_ hsorted
          intro pr qr hprm hqrm hrel
          have hprk : pr ∈ keyed :=
            (List.mem_filter.mp (hperm.mem_iff.mp hprm)).1
          have hqrk : qr ∈ keyed :=
            (List.mem_filter.mp (hperm.mem_iff.mp hqrm)).1
          have hwp : wrD st pr.1 = pr.2.ever_drawn_win_rate := by
            unfold wrD
            rw [harchD, hpt pr hprk]
          have hwq : wrD st qr.1 = qr.2.ever_drawn_win_rate := by
            unfold wrD
            rw [harchD, hpt qr hqrk]
          rw [hwp, hwq]
          exact hrel
        exact List.pairwise_map.mpr hpw

unseal Rat.mul Rat.inv Rat.add Rat.sub in
/-- Witness for C8 on a concrete pack event. -/
theorem C8_gih_report_filter_and_sort_witness :
    ([1] : List ℕ).Perm
      (docP25.card_ids.filter (fun id => 200 < gcD stEx id)) :=
  (C8_gih_report_filter_and_sort stEx docP25 stEx
    (Output.mk [1] [1] none) (by rfl)).1

/-- Lookup after an association-list store. -/
theorem lookupA_insertA {α : Type} (l : List (String × α)) (k : String)
    (v : α) (k' : String) :
    lookupA (insertA l k v) k' = if k = k' then some v else lookupA l k' := by
  induction l with
  | nil => rfl
  | cons hd tl ih =>
      obtain ⟨a, b⟩ := hd
      by_cases hak : a = k
      · subst hak
        by_cases hk' : a = k'
        · subst hk'
          simp [insertA, lookupA]
        · simp [insertA, lookupA, hk']
      · by_cases hak' : a = k'
        · subst hak'
          rw [if_neg (fun hh => hak hh.symm)]
          have h1 : insertA ((a, b) :: tl) k v = (a, b) :: insertA tl k v := by
            simp [insertA, hak]
          rw [h1]
          simp [lookupA]
        · simp only [insertA, lookupA, if_neg hak, if_neg hak']
          exact ih

/-- Reading a signal total after one accumulation. -/
theorem getSignal_addSig (sigs : List (String × ℚ)) (k : String) (v : ℚ)
    (c : String) :
    getSignal (addSig sigs k v) c =
      getSignal sigs c + (if k = c then v else 0) := by
  unfold addSig getSignal
  rw [lookupA_insertA]
  by_cases hk : k = c
  · subst hk
    simp
  · simp [hk]

/-- Outside pack 1, the signal fold leaves the totals untouched. -/
theorem foldME_packStep_ne_one (st : ProcState) (pack pick : ℕ)
    (hp : pack ≠ 1) :
    ∀ (l : List (ℕ × StatRecord)) (sigs sigs' : List (String × ℚ)),
      foldME (packStep st pack pick) sigs l = Except.ok sigs' →
      sigs' = sigs := by
  intro l
  induction l with
  | nil => intro sigs sigs' h; cases h; rfl
  | cons x t ih =>
      intro sigs sigs' h
      unfold foldME at h
      cases hs : packStep st pack pick sigs x with
      | error e => rw [hs] at h; cases h
      | ok s1 =>
          rw [hs] at h
          have hss : s1 = sigs := by
            unfold packStep at hs
            rw [if_neg hp] at hs
            cases hc : printCardChecks st x.1 with
            | error e => rw [hc] at hs; cases hs
            | ok u => rw [hc] at hs; cases hs; rfl
          rw [hss] at h
          exact ih sigs sigs' h

/-- In pack 1, the signal fold adds each card's score to its colour's
total. -/
theorem foldME_packStep_one (st : ProcState) (pick : ℕ) :
    ∀ (l : List (ℕ × StatRecord)) (sigs sigs' : List (String × ℚ)),
      foldME (packStep st 1 pick) sigs l = Except.ok sigs' →
      ∀ c, getSignal sigs' c = getSignal sigs c +
        (l.map (fun pr => if pr.2.color = c then
          (calc_score pick pr.2.avg_seen).getD 0 else 0)).sum := by
  intro l
  induction l with
  | nil =>
      intro sigs sigs' h c
      cases h
      simp
  | cons x t ih =>
      intro sigs sigs' h c
      unfold foldME at h
      cases hs : packStep st 1 pick sigs x with
      | error e => rw [hs] at h; cases h
      | ok s1 =>
          rw [hs] at h
          unfold packStep at hs
          rw [if_pos (rfl : (1 : ℕ) = 1)] at hs
          cases hcs : calc_score pick x.2.avg_seen with
          | none => rw [hcs] at hs; cases hs
          | some sc =>
              rw [hcs] at hs
              cases hc : printCardChecks st x.1 with
              | error e => rw [hc] at hs; cases hs
              | ok u =>
                  rw [hc] at hs
                  cases hs
                  have hsum := ih (addSig sigs x.2.color sc) sigs' h c
                  rw [hsum, getSignal_addSig, List.map_cons, List.sum_cons,
                    hcs]
                  simp only [Option.getD_some]
                  rw [add_assoc]

/-- The keyed contributions of the offered cards read back as the
id-level contributions. -/
theorem mapME_rankPair_contrib (st : ProcState) (pick : ℕ) (c : String) :
    ∀ (ids : List ℕ) (keyed : List (ℕ × StatRecord)),
      mapME (rankPair st (archD st)) ids = Except.ok keyed →
      keyed.map (fun pr => if pr.2.color = c then
        (calc_score pick pr.2.avg_seen).getD 0 else 0) =
      ids.map (sigContrib st pick c) := by
  intro ids
  induction ids with
  | nil => intro keyed h; cases h; rfl
  | cons a t ih =>
      intro keyed h
      unfold mapME at h
      cases hra : rankPair st (archD st) a with
      | error e => rw [hra] at h; cases h
      | ok b =>
          rw [hra] at h
          cases ht : mapME (rankPair st (archD st)) t with
          | error e => rw [ht] at h; cases h
          | ok bs =>
              rw [ht] at h
              cases h
              unfold rankPair at hra
              cases hr : rankingOf st (archD st) a with
              | error e => rw [hr] at hra; cases hra
              | ok r =>
                  rw [hr] at hra
                  cases hra
                  rw [List.map_cons, List.map_cons, ih bs ht]
                  have hcol : cardColorD st a = r.color := by
                    unfold cardColorD
                    rw [hr]
                  have havg : cardAvgD st a = r.avg_seen := by
                    unfold cardAvgD
                    rw [hr]
                  unfold sigContrib
                  rw [hcol, havg]

/-- C3: a pack event adds `worth[int(avg_seen)] * muls[pick_number]` to
the signal total of each offered card's colour exactly when its pack
number is 1; otherwise the totals are unchanged. -/
theorem C3_signals_updated_only_in_pack_one :
    ∀ (st : ProcState) (doc : PackDoc) (st' : ProcState) (out : Output),
      processPack st doc = Except.ok (st', out) →
      (doc.pack_number ≠ 1 → st'.signals = st.signals) ∧
      (doc.pack_number = 1 → ∀ c, getSignal st'.signals c =
        getSignal st.signals c +
        (doc.card_ids.map (sigContrib st doc.pick_number c)).sum) := by
  intro st doc st' out h
  obtain ⟨arch, keyed, sigs, gih, inv, ha, hk, hf, hg, _, hst, hout⟩ :=
    processPack_ok_elim h
  have harchD : archD st = arch := by
    unfold archD
    rw [ha]
  constructor
  · intro hne
    rw [hst]
    exact foldME_packStep_ne_one st _ _ hne _ _ _ hf
  · intro h1 c
    rw [hst]
    dsimp only
    rw [h1] at hf
    have hsum := foldME_packStep_one st doc.pick_number _ _ _ hf c
    rw [hsum]
    congr 1
    have hperm := List.perm_insertionSort leAvgSeen keyed
    have hmp := (hperm.map (fun pr => if pr.2.color = c then
      (calc_score doc.pick_number pr.2.avg_seen).getD 0 else 0)).sum_eq
    rw [hmp, mapME_rankPair_contrib st doc.pick_number c doc.card_ids keyed
      (by rw [harchD]; exact hk)]

unseal Rat.mul Rat.inv Rat.add Rat.sub in
/-- Witness for C3 on a concrete pack-1 event: the red card scores
`worth[2] * muls[3] = 10 * 0.2 = 2` into the red signal. -/
theorem C3_signals_updated_only_in_pack_one_witness :
    getSignal [("R", (2 : ℚ))] "R" = getSignal stEx.signals "R" +
      (docP13.card_ids.map (sigContrib stEx docP13.pick_number "R")).sum :=
  (C3_signals_updated_only_in_pack_one stEx docP13
    { stEx with signals := [("R", (2 : ℚ))] }
    (Output.mk [1] [1] none) (by rfl)).2 rfl "R"

/-- A counted colour that passes the filter commutes with `bump`. -/
theorem bump_filter_pos (p : Char → Bool) (c : Char) (hc : p c = true) :
    ∀ (acc : List (Char × ℕ)),
      (bump acc c).filter (fun q => p q.1) =
        bump (acc.filter (fun q => p q.1)) c := by
  intro acc
  induction acc with
  | nil => simp [bump, hc]
  | cons hd tl ih =>
      obtain ⟨k, n⟩ := hd
      by_cases hkc : k = c
      · subst hkc
        simp [bump, List.filter_cons, hc]
      · by_cases hpk : p k
        · simp [bump, List.filter_cons, hkc, hpk, ih]
        · simp [bump, List.filter_cons, hkc, hpk, ih]

/-- A counted symbol that fails the filter leaves the filtered counter
unchanged. -/
theorem bump_filter_neg (p : Char → Bool) (c : Char) (hc : p c = false) :
    ∀ (acc : List (Char × ℕ)),
      (bump acc c).filter (fun q => p q.1) =
        acc.filter (fun q => p q.1) := by
  intro acc
  induction acc with
  | nil => simp [bump, hc]
  | cons hd tl ih =>
      obtain ⟨k, n⟩ := hd
      by_cases hkc : k = c
      · subst hkc
        simp [bump, List.filter_cons, hc]
      · by_cases hpk : p k
        · simp [bump, List.filter_cons, hkc, hpk, ih]
        · simp [bump, List.filter_cons, hkc, hpk, ih]

/-- Filtering a tally by key is tallying the filtered symbols: deleting
the non-colour keys afterwards equals ignoring them up front. -/
theorem foldl_bump_filter (p : Char → Bool) :
    ∀ (l : List Char) (acc : List (Char × ℕ)),
      (l.foldl bump acc).filter (fun q => p q.1) =
        (l.filter p).foldl bump (acc.filter (fun q => p q.1)) := by
  intro l
  induction l with
  | nil => intro acc; rfl
  | cons c t ih =>
      intro acc
      rw [List.foldl_cons, ih (bump acc c), List.filter_cons]
      by_cases hc : p c
      · rw [bump_filter_pos p c hc acc]
        simp [hc]
      · rw [bump_filter_neg p c (by simpa using hc) acc]
        simp [hc]

/-- `maxEntry` picks an element of the list it scans. -/
theorem maxEntry_mem :
    ∀ (xs : List (Char × ℕ)) (x : Char × ℕ), maxEntry x xs ∈ x :: xs := by
  intro xs
  induction xs with
  | nil => intro x; simp [maxEntry]
  | cons y ys ih =>
      intro x
      rw [maxEntry, List.foldl_cons]
      have hih := ih (if x.2 < y.2 then y else x)
      rw [maxEntry] at hih
      by_cases hxy : x.2 < y.2
      · rw [if_pos hxy] at hih ⊢
        rcases List.mem_cons.mp hih with h | h
        · rw [h]; simp
        · simp [List.mem_cons, h]
      · rw [if_neg hxy] at hih ⊢
        rcases List.mem_cons.mp hih with h | h
        · rw [h]; simp
        · simp [List.mem_cons, h]

/-- The two most common entries come from the counter. -/
theorem mostCommonTwo_mem (l : List (Char × ℕ)) :
    ∀ q ∈ mostCommonTwo l, q ∈ l := by
  intro q hq
  unfold mostCommonTwo at hq
  cases l with
  | nil => cases hq
  | cons x xs =>
      dsimp only at hq
      split at hq
      · rcases List.mem_singleton.mp hq with rfl
        exact maxEntry_mem xs x
      · rename_i y ys hfil
        rcases List.mem_cons.mp hq with h | h
        · rw [h]
          exact maxEntry_mem xs x
        · rcases List.mem_singleton.mp h with rfl
          have hyys : maxEntry y ys ∈ y :: ys := maxEntry_mem ys y
          rw [← hfil] at hyys
          exact List.mem_of_mem_filter hyys

/-- The uppercased two most common colours never form the letter set of
`"XX"`. -/
theorem setEqB_XX_top (cnt : List (Char × ℕ))
    (hc : ∀ q ∈ cnt, wubrgChars.contains q.1 = true) :
    setEqB (String.toList "XX")
      ((mostCommonTwo cnt).map (fun p => p.1.toUpper)) = false := by
  cases heq : setEqB (String.toList "XX")
      ((mostCommonTwo cnt).map (fun p => p.1.toUpper)) with
  | false => rfl
  | true =>
      exfalso
      unfold setEqB at heq
      rw [Bool.and_eq_true, List.all_eq_true] at heq
      obtain ⟨h1, _⟩ := heq
      have hX := h1 'X' (by decide)
      have hmem : ('X' : Char) ∈
          (mostCommonTwo cnt).map (fun p => p.1.toUpper) := by
        simpa using hX
      obtain ⟨q, hq, hqu⟩ := List.mem_map.mp hmem
      have hqc := hc q (mostCommonTwo_mem cnt q hq)
      obtain ⟨c, k⟩ := q
      have hqw : c ∈ wubrgChars := by simpa using hqc
      fin_cases hqw
      · exact absurd hqu (show ¬ ('w' : Char).toUpper = 'X' by decide)
      · exact absurd hqu (show ¬ ('u' : Char).toUpper = 'X' by decide)
      · exact absurd hqu (show ¬ ('b' : Char).toUpper = 'X' by decide)
      · exact absurd hqu (show ¬ ('r' : Char).toUpper = 'X' by decide)
      · exact absurd hqu (show ¬ ('g' : Char).toUpper = 'X' by decide)

/-- With the `"XX"` predicate false, searching all eleven archetypes is
searching the ten pairs. -/
theorem find?_archetypes_eq_pairs (top : List Char)
    (hX : setEqB (String.toList "XX") top = false) :
    (match ARCHETYPES.find? (fun a => setEqB a.toList top) with
     | some a => a
     | none => "XX") =
    (match PAIR_ARCHETYPES.find? (fun a => setEqB a.toList top) with
     | some a => a
     | none => "XX") := by
  have hsplit : ARCHETYPES = PAIR_ARCHETYPES ++ ["XX"] := rfl
  rw [hsplit, List.find?_append]
  cases hp : PAIR_ARCHETYPES.find? (fun a => setEqB a.toList top) with
  | some a => rfl
  | none =>
      have hX2 : setEqB ['X', 'X'] top = false := hX
      have hxx : List.find? (fun a => setEqB a.toList top) ["XX"] = none := by
        simp only [List.find?]
        rw [show setEqB (String.toList "XX") top = false from hX]
      rw [hxx]
      rfl

/-- Tallying a run of one repeated symbol onto its own counter entry. -/
theorem tally_const :
    ∀ (l : List Char) (c : Char) (n : ℕ), (∀ x ∈ l, x = c) →
      l.foldl bump [(c, n)] = [(c, n + l.length)] := by
  intro l
  induction l with
  | nil => intro c n _; simp
  | cons d t ih =>
      intro c n h
      have hdc : d = c := h d (List.mem_cons_self d t)
      subst hdc
      rw [List.foldl_cons]
      have hb : bump [(d, n)] d = [(d, n + 1)] := by simp [bump]
      rw [hb, ih d (n + 1) (fun x hx => h x (List.mem_cons_of_mem d hx))]
      simp
      omega

/-- The two most common entries of a one-entry counter. -/
theorem mostCommonTwo_single (c : Char) (k : ℕ) :
    mostCommonTwo [(c, k)] = [(c, k)] := by
  unfold mostCommonTwo maxEntry
  simp

/-- C2: the draft archetype inference agrees with the spec's algorithm —
tally the colour pips of all picked cards' costs (generic symbols
ignored), take the two most common with stable tie-break, match against
the ten two-colour tags, `"XX"` otherwise — and with fewer than two
distinct colours observed it yields `"XX"`. -/
theorem C2_archetype_inference_matches_spec :
    ∀ (st : ProcState) (costs : List (List Char)),
      mapME (fun p => exceptOf ((st.db p.2).map CardRecord.cost))
        st.picks = Except.ok costs →
      (get_archetype st = Except.ok (inferArchetypeSpec costs) ∧
       ((∀ c1 ∈ costs.flatten.filter (fun c => wubrgChars.contains c),
         ∀ c2 ∈ costs.flatten.filter (fun c => wubrgChars.contains c),
           c1 = c2) →
         get_archetype st = Except.ok "XX")) := by
  intro st costs hm
  have hga : get_archetype st = Except.ok (getArchetypeOfCosts costs) := by
    unfold get_archetype
    rw [hm]
  have hcnt : (tallyChars costs.flatten).filter
      (fun q => wubrgChars.contains q.1) =
      tallyChars (costs.flatten.filter (fun c => wubrgChars.contains c)) := by
    unfold tallyChars
    rw [foldl_bump_filter]
    rfl
  have hkeys : ∀ q ∈ (tallyChars costs.flatten).filter
      (fun q => wubrgChars.contains q.1), wubrgChars.contains q.1 = true :=
    fun q hq => (List.mem_filter.mp hq).2
  have heq : getArchetypeOfCosts costs = inferArchetypeSpec costs := by
    unfold getArchetypeOfCosts inferArchetypeSpec
    rw [← hcnt]
    exact find?_archetypes_eq_pairs _ (setEqB_XX_top _ hkeys)
  constructor
  · rw [hga, heq]
  · intro hdistinct
    rw [hga, heq]
    have hspec : ∀ (cs : List (List Char)), inferArchetypeSpec cs =
        (match PAIR_ARCHETYPES.find? (fun a => setEqB a.toList
          ((mostCommonTwo (tallyChars (cs.flatten.filter
            (fun c => wubrgChars.contains c)))).map
            (fun p => p.1.toUpper))) with
         | some a => a
         | none => "XX") := fun _ => rfl
    rw [hspec]
    cases hobs : costs.flatten.filter (fun c => wubrgChars.contains c) with
    | nil => rfl
    | cons c rest =>
        rw [hobs] at hdistinct
        have hall : ∀ x ∈ c :: rest, x = c := by
          intro x hx
          exact hdistinct x hx c (List.mem_cons_self c rest)
        have htl : tallyChars (c :: rest) = [(c, 1 + rest.length)] := by
          unfold tallyChars
          rw [List.foldl_cons]
          have hb : bump [] c = [(c, 1)] := rfl
          rw [hb, tally_const rest c 1
            (fun x hx => hall x (List.mem_cons_of_mem c hx))]
        rw [htl, mostCommonTwo_single]
        have hcw : c ∈ wubrgChars := by
          have := List.mem_filter.mp (hobs ▸ List.mem_cons_self c rest :
            c ∈ costs.flatten.filter (fun x => wubrgChars.contains x))
          simpa using this.2
        fin_cases hcw
        · rfl
        · rfl
        · rfl
        · rfl
        · rfl

/-- Witness for C2 on a concrete one-pick state (a single red pip seen:
fewer than two colours, so `"XX"`). -/
theorem C2_archetype_inference_matches_spec_witness :
    get_archetype stEx2 = Except.ok "XX" :=
  (C2_archetype_inference_matches_spec stEx2 [['r']] (by rfl)).2 (by decide)

/-- Storing a record under its own name preserves name-keyedness. -/
theorem nameKeyed_updateLk (L : Lookup) (cp n : String) (r : StatRecord)
    (hL : NameKeyed L) (hr : r.name = n) : NameKeyed (updateLk L cp n r) := by
  intro a n' r' h
  unfold updateLk at h
  by_cases hacp : a = cp
  · rw [if_pos hacp, lookupA_insertA] at h
    by_cases hnn : n = n'
    · rw [if_pos hnn] at h
      cases h
      rw [← hnn]
      exact hr
    · rw [if_neg hnn] at h
      exact hL a n' r' h
  · rw [if_neg hacp] at h
    exact hL a n' r' h

/-- One `process_rankings` item step preserves name-keyedness. -/
theorem processItem_nameKeyed (cp : String) (L L' : Lookup)
    (it : StatRecord) (h : processItem cp L it = Except.ok L')
    (hL : NameKeyed L) : NameKeyed L' := by
  unfold processItem at h
  dsimp only at h
  have hL1 : NameKeyed (updateLk L cp it.name it) :=
    nameKeyed_updateLk L cp it.name it hL rfl
  split at h
  · cases h
  · rename_i bonus hb
    split at h
    · rename_i hcp
      split at h
      · cases h
      · rename_i stored hst
        split at h
        · cases h
        · rename_i cross hcross
          split at h
          · cases h
          · rename_i r hr
            injection hr with hre
            subst hre
            cases h
            subst hcp
            exact nameKeyed_updateLk _ "XX" it.name _ hL1
              (hL1 "XX" it.name stored hst)
    · rename_i hcp
      split at h
      · cases h
      · rename_i ab hab
        split at h
        · cases h
        · rename_i r hr
          cases h
          exact nameKeyed_updateLk _ cp it.name _ hL1
            (hL1 cp it.name r hr)

/-- Membership-aware invariant preservation along `foldME`. -/
theorem foldME_pres_mem {σ α : Type} (P : σ → Prop)
    (f : σ → α → Except Err σ) :
    ∀ (l : List α),
      (∀ s a s', a ∈ l → f s a = Except.ok s' → P s → P s') →
      ∀ s s', foldME f s l = Except.ok s' → P s → P s' := by
  intro l
  induction l with
  | nil =>
      intro _ s s' h hs
      cases h
      exact hs
  | cons a t ih =>
      intro hf s s' h hs
      unfold foldME at h
      cases hfa : f s a with
      | error e => rw [hfa] at h; cases h
      | ok s1 =>
          rw [hfa] at h
          exact ih (fun s2 b s2' hb => hf s2 b s2' (List.mem_cons_of_mem a hb))
            s1 s' h (hf s a s1 (List.mem_cons_self a t) hfa hs)

/-- The built ranking lookup keys every record by its own name. -/
theorem processRankings_nameKeyed (raw : String → List StatRecord)
    (L : Lookup) (h : processRankings raw = Except.ok L) : NameKeyed L := by
  unfold processRankings at h
  refine foldME_pres_mem NameKeyed _ ARCHETYPES ?_ emptyLookup L h ?_
  · intro s cp s' _ hstage hs
    unfold processArch at hstage
    exact foldME_pres_mem NameKeyed _ (raw cp)
      (fun s2 it s2' _ hit hs2 => processItem_nameKeyed cp s2 s2' it hit hs2)
      s s' hstage hs
  · intro a n r hr
    cases hr

/-- C6: for a card present in the database, looking up its ranking in the
selected archetype (the inferred one, or `"XX"` under the default flag)
returns exactly the stored record — whose name is the card's name — when
the name is present in that archetype's map, and raises `KeyError`
exactly when it is absent. -/
theorem C6_ranking_lookup_by_name :
    ∀ (raw : String → List StatRecord) (st : ProcState) (arch : String)
      (id : ℕ) (card : CardRecord),
      processRankings raw = Except.ok st.ranking_lookup →
      st.db id = some card →
      ((∀ r, lookupA (st.ranking_lookup arch) card.name = some r →
          rankingOf st arch id = Except.ok r ∧ r.name = card.name) ∧
       (lookupA (st.ranking_lookup arch) card.name = none →
          rankingOf st arch id = Except.error Err.keyError) ∧
       ranking st id true = rankingOf st "XX" id ∧
       (∀ a, get_archetype st = Except.ok a →
          ranking st id false = rankingOf st a id)) := by
  intro raw st arch id card hbuild hdb
  have hNK := processRankings_nameKeyed raw st.ranking_lookup hbuild
  refine ⟨?_, ?_, rfl, ?_⟩
  · intro r hr
    constructor
    · unfold rankingOf
      rw [hdb]
      show exceptOf (lookupA (st.ranking_lookup arch) card.name) =
        Except.ok r
      rw [hr]
      rfl
    · exact hNK arch card.name r hr
  · intro hnone
    unfold rankingOf
    rw [hdb]
    show exceptOf (lookupA (st.ranking_lookup arch) card.name) =
      Except.error Err.keyError
    rw [hnone]
    rfl
  · intro a ha
    show (match get_archetype st with
      | Except.error e => (Except.error e : Except Err StatRecord)
      | Except.ok arch => rankingOf st arch id) = rankingOf st a id
    rw [ha]

unseal Rat.mul Rat.inv Rat.add Rat.sub in
/-- Witness for C6 on the concrete built lookup. -/
theorem C6_ranking_lookup_by_name_witness :
    rankingOf stEx "WU" 1 = Except.ok boltStat ∧
    boltStat.name = cardBolt.name :=
  (C6_ranking_lookup_by_name rawEx stEx "WU" 1 cardBolt (by rfl)
    (by rfl)).1 boltStat (by rfl)

/-- With all archetype bonuses zero, the cross-archetype fold keeps its
accumulator. -/
theorem foldME_crossStep_zero (L : Lookup) (name : String) (gcXX : ℕ) :
    ∀ (l : List String), (∀ a ∈ l, ARCHETYPE_BONUSES a = some 0) →
      ∀ (acc q : ℚ), foldME (crossStep L name gcXX) acc l = Except.ok q →
        q = acc := by
  intro l
  induction l with
  | nil =>
      intro _ acc q h
      cases h
      rfl
  | cons a t ih =>
      intro hz acc q h
      unfold foldME at h
      split at h
      · cases h
      · rename_i s1 h1
        unfold crossStep at h1
        split at h1
        · cases h1
        · rename_i r hl
          split at h1
          · cases h1
          · rename_i ab hab
            injection h1 with h1e
            have hab0 : ab = 0 := by
              have hz1 := hz a (List.mem_cons_self a t)
              rw [hz1] at hab
              injection hab with he
              exact he.symm
            have hq := ih (fun b hb => hz b (List.mem_cons_of_mem a hb))
              s1 q h
            rw [hq, ← h1e, hab0]
            simp

/-- A successful cross-archetype correction is zero (all archetype
bonuses are zero). -/
theorem crossSum_ok_zero (L : Lookup) (name : String) (gcXX : ℕ) (q : ℚ)
    (h : crossSum L name gcXX = Except.ok q) : q = 0 := by
  unfold crossSum at h
  split at h
  · cases h
  · exact foldME_crossStep_zero L name gcXX PAIR_ARCHETYPES (by decide) 0 q h

/-- Re-storing under the same key overwrites the first store. -/
theorem insertA_insertA {α : Type} (l : List (String × α)) (k : String)
    (v w : α) : insertA (insertA l k v) k w = insertA l k w := by
  induction l with
  | nil => simp [insertA]
  | cons hd tl ih =>
      obtain ⟨a, b⟩ := hd
      by_cases hak : a = k
      · simp [insertA, hak]
      · simp [insertA, hak, ih]

/-- Adding a zero improvement bonus is the identity on a record. -/
theorem statRecord_bump_zero (it : StatRecord) :
    { it with drawn_improvement_win_rate :=
      it.drawn_improvement_win_rate + 0 } = it := by
  cases it
  simp

/-- A `process_rankings` item step for a pair archetype: it stores the
raw item unchanged (the archetype bonus being zero) and touches no other
archetype's map. -/
theorem processItem_pair_spec (cp : String) (hcp : cp ≠ "XX")
    (hab : ARCHETYPE_BONUSES cp = some 0) (L L' : Lookup) (it : StatRecord)
    (h : processItem cp L it = Except.ok L') :
    L' cp = insertA (L cp) it.name it ∧ ∀ a, a ≠ cp → L' a = L a := by
  unfold processItem at h
  dsimp only at h
  split at h
  · cases h
  · rename_i bonus hb
    rw [if_neg hcp] at h
    split at h
    · rename_i habn
      rw [hab] at habn
      cases habn
    · rename_i ab hab2
      have hab0 : ab = 0 := by
        rw [hab] at hab2
        injection hab2 with he
        exact he.symm
      subst hab0
      split at h
      · cases h
      · rename_i r hr
        have hupd : (updateLk L cp it.name it) cp =
            insertA (L cp) it.name it := by
          unfold updateLk
          rw [if_pos rfl]
        rw [hupd, lookupA_insertA, if_pos rfl] at hr
        injection hr with hre
        subst hre
        cases h
        constructor
        · show (updateLk (updateLk L cp it.name it) cp it.name _) cp = _
          unfold updateLk
          rw [if_pos rfl, if_pos rfl, insertA_insertA, statRecord_bump_zero]
        · intro a ha
          show (updateLk (updateLk L cp it.name it) cp it.name _) a = L a
          unfold updateLk
          rw [if_neg ha, if_neg ha]

/-- A `process_rankings` item step for the aggregate archetype: it stores
the raw item with exactly the per-colour bonus added to the improvement
win rate (the cross-archetype term being zero), and touches no other
archetype's map. -/
theorem processItem_xx_spec (L M : Lookup) (it : StatRecord)
    (h : processItem "XX" L it = Except.ok M) :
    ∃ b, perColorBonus it.color = some b ∧
      M "XX" = insertA (L "XX") it.name
        { it with drawn_improvement_win_rate :=
          it.drawn_improvement_win_rate + b } ∧
      ∀ a, a ≠ "XX" → M a = L a := by
  unfold processItem at h
  dsimp only at h
  split at h
  · cases h
  · rename_i bonus hb
    rw [if_pos rfl] at h
    split at h
    · cases h
    · rename_i stored hst
      have hupd : (updateLk L "XX" it.name it) "XX" =
          insertA (L "XX") it.name it := by
        unfold updateLk
        rw [if_pos rfl]
      have hstored : stored = it := by
        rw [hupd, lookupA_insertA, if_pos rfl] at hst
        injection hst with he
        exact he.symm
      subst hstored
      split at h
      · cases h
      · rename_i cross hcross
        have hcross0 : cross = 0 := crossSum_ok_zero _ _ _ _ hcross
        subst hcross0
        split at h
        · cases h
        · rename_i r hr
          injection hr with hre
          subst hre
          cases h
          refine ⟨bonus, hb, ?_, ?_⟩
          · show (updateLk (updateLk L "XX" stored.name stored) "XX"
              stored.name _) "XX" = _
            unfold updateLk
            rw [if_pos rfl, if_pos rfl, insertA_insertA, add_zero]
          · intro a ha
            show (updateLk (updateLk L "XX" stored.name stored) "XX"
              stored.name _) a = L a
            unfold updateLk
            rw [if_neg ha, if_neg ha]

/-- Provenance through a pair archetype's pass: every stored entry is an
earlier entry or a raw item stored unchanged; other maps untouched. -/
theorem processArch_pair_prov (cp : String) (hcp : cp ≠ "XX")
    (hab : ARCHETYPE_BONUSES cp = some 0) :
    ∀ (items : List StatRecord) (L L' : Lookup),
      processArch L cp items = Except.ok L' →
      ((∀ n r, lookupA (L' cp) n = some r →
        lookupA (L cp) n = some r ∨ ∃ it ∈ items, it.name = n ∧ r = it) ∧
       ∀ a, a ≠ cp → L' a = L a) := by
  intro items
  induction items with
  | nil =>
      intro L L' h
      cases h
      exact ⟨fun n r hr => Or.inl hr, fun a _ => rfl⟩
  | cons it t ih =>
      intro L L' h
      unfold processArch at h
      unfold foldME at h
      split at h
      · cases h
      · rename_i L1 h1
        obtain ⟨hL1cp, hL1other⟩ := processItem_pair_spec cp hcp hab L L1 it h1
        have hih := ih L1 L' h
        constructor
        · intro n r hr
          rcases hih.1 n r hr with hold | hnew
          · rw [hL1cp, lookupA_insertA] at hold
            by_cases hn : it.name = n
            · rw [if_pos hn] at hold
              injection hold with he
              exact Or.inr ⟨it, List.mem_cons_self it t, hn, he.symm⟩
            · rw [if_neg hn] at hold
              exact Or.inl hold
          · obtain ⟨it', hmem, hn, hre⟩ := hnew
            exact Or.inr ⟨it', List.mem_cons_of_mem it hmem, hn, hre⟩
        · intro a ha
          rw [hih.2 a ha, hL1other a ha]

/-- Provenance through the aggregate pass: every stored `"XX"` entry is
an earlier entry or a raw item with its per-colour bonus added; other
maps untouched. -/
theorem processArch_xx_prov :
    ∀ (items : List StatRecord) (L M : Lookup),
      processArch L "XX" items = Except.ok M →
      ((∀ n r, lookupA (M "XX") n = some r →
        lookupA (L "XX") n = some r ∨
        ∃ it ∈ items, ∃ b, it.name = n ∧ perColorBonus it.color = some b ∧
          r = { it with drawn_improvement_win_rate :=
            it.drawn_improvement_win_rate + b }) ∧
       ∀ a, a ≠ "XX" → M a = L a) := by
  intro items
  induction items with
  | nil =>
      intro L M h
      cases h
      exact ⟨fun n r hr => Or.inl hr, fun a _ => rfl⟩
  | cons it t ih =>
      intro L M h
      unfold processArch at h
      unfold foldME at h
      split at h
      · cases h
      · rename_i L1 h1
        obtain ⟨b, hb, hL1xx, hL1other⟩ := processItem_xx_spec L L1 it h1
        have hih := ih L1 M h
        constructor
        · intro n r hr
          rcases hih.1 n r hr with hold | hnew
          · rw [hL1xx, lookupA_insertA] at hold
            by_cases hn : it.name = n
            · rw [if_pos hn] at hold
              injection hold with he
              exact Or.inr ⟨it, List.mem_cons_self it t, b, hn, hb, he.symm⟩
            · rw [if_neg hn] at hold
              exact Or.inl hold
          · obtain ⟨it', hmem, b', hn, hb', hre⟩ := hnew
            exact Or.inr ⟨it', List.mem_cons_of_mem it hmem, b', hn, hb', hre⟩
        · intro a ha
          rw [hih.2 a ha, hL1other a ha]

/-- C1 (amended): in the built ranking index, the per-colour bonus is
added to `drawn_improvement_win_rate` only for the aggregate `"XX"`
archetype (together with the currently-zero cross-archetype term); the
entries of the ten two-colour pairs are stored with only the fixed
archetype bonus — currently zero — added, i.e. unchanged, the computed
per-colour bonus being discarded for them. -/
theorem C1_color_bonus_added_only_for_aggregate :
    ∀ (raw : String → List StatRecord) (L : Lookup),
      processRankings raw = Except.ok L →
      (∀ cp ∈ PAIR_ARCHETYPES, ∀ n r, lookupA (L cp) n = some r →
        ∃ it ∈ raw cp, it.name = n ∧ r = it) ∧
      (∀ n r, lookupA (L "XX") n = some r →
        ∃ it ∈ raw "XX", ∃ b, it.name = n ∧
          perColorBonus it.color = some b ∧
          r = { it with drawn_improvement_win_rate :=
            it.drawn_improvement_win_rate + b }) := by
  intro raw L h
  unfold processRankings at h
  refine foldME_pres_mem (fun M =>
      (∀ cp ∈ PAIR_ARCHETYPES, ∀ n r, lookupA (M cp) n = some r →
        ∃ it ∈ raw cp, it.name = n ∧ r = it) ∧
      (∀ n r, lookupA (M "XX") n = some r →
        ∃ it ∈ raw "XX", ∃ b, it.name = n ∧
          perColorBonus it.color = some b ∧
          r = { it with drawn_improvement_win_rate :=
            it.drawn_improvement_win_rate + b }))
    _ ARCHETYPES ?_ emptyLookup L h ?_
  · intro s cp s' hmem hstage hs
    have hsplit : cp ∈ PAIR_ARCHETYPES ∨ cp = "XX" := by
      have harch : ARCHETYPES = PAIR_ARCHETYPES ++ ["XX"] := rfl
      rw [harch, List.mem_append] at hmem
      rcases hmem with hmem | hmem
      · exact Or.inl hmem
      · exact Or.inr (List.mem_singleton.mp hmem)
    rcases hsplit with hpair | hxx
    · have hcpne : cp ≠ "XX" := by fin_cases hpair <;> decide
      have hab : ARCHETYPE_BONUSES cp = some 0 := by fin_cases hpair <;> rfl
      obtain ⟨hprov, hother⟩ :=
        processArch_pair_prov cp hcpne hab (raw cp) s s' hstage
      constructor
      · intro cp' hcp' n r hr
        by_cases hcc : cp' = cp
        · subst hcc
          rcases hprov n r hr with hold | hnew
          · exact hs.1 cp' hcp' n r hold
          · exact hnew
        · rw [hother cp' hcc] at hr
          exact hs.1 cp' hcp' n r hr
      · intro n r hr
        rw [hother "XX" (fun hh => hcpne hh.symm)] at hr
        exact hs.2 n r hr
    · subst hxx
      obtain ⟨hprov, hother⟩ := processArch_xx_prov (raw "XX") s s' hstage
      constructor
      · intro cp' hcp' n r hr
        have hcp'ne : cp' ≠ "XX" := by fin_cases hcp' <;> decide
        rw [hother cp' hcp'ne] at hr
        exact hs.1 cp' hcp' n r hr
      · intro n r hr
        rcases hprov n r hr with hold | hnew
        · exact hs.2 n r hold
        · exact hnew
  · constructor
    · intro cp _ n r hr
      cases hr
    · intro n r hr
      cases hr

unseal Rat.mul Rat.inv Rat.add Rat.sub in
/-- Counterexample to C1 as stated: with a single red entry everywhere,
the per-colour bonus is 0.018, yet the built `"WU"` entry carries the
raw improvement win rate unchanged. -/
theorem C1_counterexample_pair_entry_unchanged :
    processRankings rawEx = Except.ok (finalLookup rawEx) ∧
    lookupA (finalLookup rawEx "WU") "Bolt" = some boltStat ∧
    perColorBonus boltStat.color = some (9 / 500) ∧
    boltStat.drawn_improvement_win_rate ≠
      boltStat.drawn_improvement_win_rate + 9 / 500 :=
  ⟨rfl, by decide, by decide, by decide⟩

unseal Rat.mul Rat.inv Rat.add Rat.sub in
/-- Witness for the amended C1: the concrete `"XX"` entry carries
exactly the per-colour bonus. -/
theorem C1_color_bonus_added_only_for_aggregate_witness :
    (∃ it ∈ rawEx "WU", it.name = "Bolt" ∧ boltStat = it) ∧
    (∃ it ∈ rawEx "XX", ∃ b, it.name = "Bolt" ∧
      perColorBonus it.color = some b ∧
      ({ boltStat with drawn_improvement_win_rate :=
        boltStat.drawn_improvement_win_rate + 9 / 500 } : StatRecord) =
      { it with drawn_improvement_win_rate :=
        it.drawn_improvement_win_rate + b }) :=
  ⟨(C1_color_bonus_added_only_for_aggregate rawEx (finalLookup rawEx)
      rfl).1 "WU" (by decide) "Bolt" boltStat (by decide),
   (C1_color_bonus_added_only_for_aggregate rawEx (finalLookup rawEx)
      rfl).2 "Bolt" _ (by decide)⟩

unseal Rat.mul Rat.inv Rat.add Rat.sub in
/-- Witness for C10: the concrete pack-1 pick-1 event fails. -/
theorem C10_score_partial_no_clamping_witness :
    (processPack stEx docP11).isOk = false :=
  C10_score_partial_no_clamping.2 stEx docP11 rfl rfl (by decide)
